import Mathlib

/-!
Shallow embedding of the RayTracingInOneWeekend renderer core
(src/vec.rs, src/vec3.rs, src/ray.rs, src/hittable.rs, src/sphere.rs,
src/world.rs, src/material.rs, src/camera.rs, src/main.rs).
`f64` scalars are modelled as real numbers; the rejection-sampled
`random_vec_in_unit_sphere()` draws become explicit parameters.
-/

namespace RayTracing

noncomputable section

/-- Three-component vector of `f64` scalars (src/vec.rs `Vec<T, 3>` / src/vec3.rs `Vec3<T>`). -/
structure Vec3 where
  x : ℝ
  y : ℝ
  z : ℝ

/-- Componentwise vector addition (`impl Add for Vec`). -/
def Vec3.add (u v : Vec3) : Vec3 := ⟨u.x + v.x, u.y + v.y, u.z + v.z⟩

instance : Add Vec3 := ⟨Vec3.add⟩

/-- Componentwise vector subtraction (`impl Sub for Vec`). -/
def Vec3.sub (u v : Vec3) : Vec3 := ⟨u.x - v.x, u.y - v.y, u.z - v.z⟩

instance : Sub Vec3 := ⟨Vec3.sub⟩

/-- Componentwise negation (`impl Neg for Vec`). -/
def Vec3.neg (u : Vec3) : Vec3 := ⟨-u.x, -u.y, -u.z⟩

instance : Neg Vec3 := ⟨Vec3.neg⟩

/-- Vector times scalar (`impl Mul<T> for Vec`). -/
def Vec3.smul (u : Vec3) (c : ℝ) : Vec3 := ⟨u.x * c, u.y * c, u.z * c⟩

instance : HMul Vec3 ℝ Vec3 := ⟨Vec3.smul⟩

/-- Vector divided by scalar (`impl Div<T> for Vec`). -/
def Vec3.sdiv (u : Vec3) (c : ℝ) : Vec3 := ⟨u.x / c, u.y / c, u.z / c⟩

instance : HDiv Vec3 ℝ Vec3 := ⟨Vec3.sdiv⟩

/-- Dot product (src/vec.rs `Vec::dot`). -/
def Vec3.dot (u v : Vec3) : ℝ := u.x * v.x + u.y * v.y + u.z * v.z

/-- Cross product (src/vec.rs `Vec3::cross`). -/
def Vec3.cross (u v : Vec3) : Vec3 :=
  ⟨u.y * v.z - u.z * v.y, u.z * v.x - u.x * v.z, u.x * v.y - u.y * v.x⟩

/-- Squared length (src/vec.rs `Vec::length_squared`). -/
def Vec3.length_squared (u : Vec3) : ℝ := u.x * u.x + u.y * u.y + u.z * u.z

/-- Length (src/vec.rs `Vec::length`): square root of the squared length. -/
def Vec3.length (u : Vec3) : ℝ := Real.sqrt u.length_squared

/-- Unit-length rescaling (src/vec.rs `Vec::normalized`): divide by the length. -/
def Vec3.normalized (u : Vec3) : Vec3 := u / u.length

/-- A ray `P(t) = A + t*b` (src/ray.rs). -/
structure Ray where
  origin : Vec3
  direction : Vec3

/-- Position on the ray at parameter `t` (src/ray.rs `Ray::at`). -/
def Ray.at (r : Ray) (t : ℝ) : Vec3 := r.origin + r.direction * t

/-- Result of a successful ray/object intersection (src/hittable.rs `HitRecord`). -/
structure HitRecord where
  point : Vec3
  normal : Vec3
  t : ℝ
  front_face : Bool

/-- Constructor `HitRecord::new` (src/hittable.rs): store the outward normal when the ray arrives
from outside (`dot < 0`), otherwise flip it so the stored normal opposes the ray. -/
def HitRecord.new (point outward_normal : Vec3) (t : ℝ) (ray : Ray) : HitRecord :=
  let d := Vec3.dot ray.direction outward_normal
  let front_face : Bool := decide (d < 0)
  let normal := if front_face then outward_normal else -outward_normal
  ⟨point, normal, t, front_face⟩

/-- A sphere given by center and (possibly negative) radius (src/sphere.rs). -/
structure Sphere where
  center : Vec3
  radius : ℝ

/-- Intersection test `Sphere::is_hit` (src/sphere.rs): solve the half-b quadratic, reject a negative
discriminant, try the root `(-half_b - sqrt(disc))/a` first and the other root second,
rejecting a root `r` with `r < t_min || r > t_max`. -/
def Sphere.is_hit (s : Sphere) (ray : Ray) (t_min t_max : ℝ) : Option HitRecord :=
  let oc := ray.origin - s.center
  let a := ray.direction.length_squared
  let half_b := Vec3.dot oc ray.direction
  let c := oc.length_squared - s.radius * s.radius
  let discriminant := half_b * half_b - a * c
  if discriminant < 0 then none
  else
    let d_sqrt := Real.sqrt discriminant
    let root := (-half_b - d_sqrt) / a
    if root < t_min ∨ root > t_max then
      let root := (-half_b + d_sqrt) / a
      if root < t_min ∨ root > t_max then none
      else
        some (HitRecord.new (ray.at root) ((ray.at root - s.center) / s.radius) root ray)
    else
      some (HitRecord.new (ray.at root) ((ray.at root - s.center) / s.radius) root ray)

/-- Discriminant `half_b² - a*c` of the ray/sphere quadratic, as in `Sphere::is_hit`. -/
def Sphere.disc (s : Sphere) (ray : Ray) : ℝ :=
  let oc := ray.origin - s.center
  let a := ray.direction.length_squared
  let half_b := Vec3.dot oc ray.direction
  let c := oc.length_squared - s.radius * s.radius
  half_b * half_b - a * c

/-- The root `(-half_b - sqrt(disc))/a` tried first by `Sphere::is_hit`. -/
def Sphere.root1 (s : Sphere) (ray : Ray) : ℝ :=
  let oc := ray.origin - s.center
  let a := ray.direction.length_squared
  let half_b := Vec3.dot oc ray.direction
  (-half_b - Real.sqrt (Sphere.disc s ray)) / a

/-- The root `(-half_b + sqrt(disc))/a` tried second by `Sphere::is_hit`. -/
def Sphere.root2 (s : Sphere) (ray : Ray) : ℝ :=
  let oc := ray.origin - s.center
  let a := ray.direction.length_squared
  let half_b := Vec3.dot oc ray.direction
  (-half_b + Real.sqrt (Sphere.disc s ray)) / a

/-- The hit record `Sphere::is_hit` builds for an accepted root: the point on the ray
and the outward normal `(point - center) / radius`. -/
def Sphere.mkRec (s : Sphere) (ray : Ray) (root : ℝ) : HitRecord :=
  HitRecord.new (ray.at root) ((ray.at root - s.center) / s.radius) root ray

/-- Mirror reflection `Metal::reflect` (src/material.rs): the incident direction about the normal,
`V - 2*(V.N)*N`. -/
def Metal.reflect (ray normal : Vec3) : Vec3 :=
  let b := normal * Vec3.dot ray normal
  ray - b * (2 : ℝ)

/-- Diffuse scattering `Lambertian::scatter` (src/material.rs). The value the code draws from
`random_vec_in_unit_sphere()` is passed in as `rnd`; always scatters, attenuating
by the albedo. -/
def Lambertian.scatter (albedo : Vec3) (rnd : Vec3) (_ray : Ray) (rec : HitRecord) :
    Option (Ray × Vec3) :=
  let random_unit_vec := rnd.normalized
  let scatter_direction := rec.normal + random_unit_vec
  let scatter : Ray := ⟨rec.point, scatter_direction⟩
  some (scatter, albedo)

/-- Specular scattering `Metal::scatter` (src/material.rs). `rnd` is the value drawn from
`random_vec_in_unit_sphere()`; absorb when the fuzzed reflection lands on or
behind the surface. -/
def Metal.scatter (albedo : Vec3) (fuzz : ℝ) (rnd : Vec3) (ray : Ray) (rec : HitRecord) :
    Option (Ray × Vec3) :=
  let direction := Metal.reflect ray.direction.normalized rec.normal
  let direction := direction + rnd * fuzz
  let scatter : Ray := ⟨rec.point, direction⟩
  if Vec3.dot scatter.direction rec.normal ≤ 0 then none
  else some (scatter, albedo)

/-- Refraction `Dielectric::refract` (src/material.rs): Snell's law via the
perpendicular/parallel decomposition, clamping `cosθ` to at most 1. -/
def Dielectric.refract (ray normal : Vec3) (rr : ℝ) : Vec3 :=
  let cos_theta0 := Vec3.dot (-ray) normal
  let cos_theta := if cos_theta0 > 1 then 1 else cos_theta0
  let perpendicular := (ray + normal * cos_theta) * rr
  let parallel := normal * (-Real.sqrt |1 - perpendicular.length_squared|)
  perpendicular + parallel

/-- Dielectric scattering `Dielectric::scatter` (src/material.rs): pick the refraction ratio from the face
flag, compute `sin_theta` as `1 - cos_theta * cos_theta` exactly as the code does,
reflect when `refraction_ratio * sin_theta > 1`, refract otherwise; attenuation is
always `(1,1,1)`. -/
def Dielectric.scatter (refraction : ℝ) (ray : Ray) (rec : HitRecord) :
    Option (Ray × Vec3) :=
  let eta : ℝ := 1
  let eta_prime := refraction
  let rr := if rec.front_face then eta / eta_prime else eta_prime
  let r := ray.direction.normalized
  let cos_theta0 := Vec3.dot (-r) rec.normal
  let cos_theta := if cos_theta0 > 1 then 1 else cos_theta0
  let sin_theta := 1 - cos_theta * cos_theta
  let direction :=
    if rr * sin_theta > 1 then Metal.reflect r rec.normal
    else Dielectric.refract r rec.normal rr
  let scatter : Ray := ⟨rec.point, direction⟩
  some (scatter, ⟨1, 1, 1⟩)

/-- The three material variants of the program (src/material.rs). -/
inductive Material where
  | lambertian (albedo : Vec3)
  | metal (albedo : Vec3) (fuzz : ℝ)
  | dielectric (refraction : ℝ)

/-- Dispatch `Material::scatter` to the variant's implementation, handing the
pending `random_vec_in_unit_sphere()` draw to the variants that consume one. -/
def Material.scatter (m : Material) (rnd : Vec3) (ray : Ray) (rec : HitRecord) :
    Option (Ray × Vec3) :=
  match m with
  | .lambertian albedo => Lambertian.scatter albedo rnd ray rec
  | .metal albedo fuzz => Metal.scatter albedo fuzz rnd ray rec
  | .dielectric refraction => Dielectric.scatter refraction ray rec

/-- The loop body of src/world.rs `World::trace`: walk the remaining
(surface, material) pairs, re-deriving the effective `t_max` from the best hit
so far before each test, and replacing the best hit whenever a test succeeds. -/
def World.traceAux {α : Type} (ray : Ray) (t_min t_max : ℝ) :
    List (Sphere × α) → Option (HitRecord × α) → Option (HitRecord × α)
  | [], hit => hit
  | sm :: rest, hit =>
    let tm := match hit with
      | some (rec, _) => rec.t
      | none => t_max
    let hit' := match Sphere.is_hit sm.1 ray t_min tm with
      | some rec => some (rec, sm.2)
      | none => hit
    World.traceAux ray t_min t_max rest hit'

/-- Scene resolution `World::trace` (src/world.rs): nearest-hit resolution over the ordered
(surface, material) pairs, starting from no hit. -/
def World.trace {α : Type} (objects : List (Sphere × α)) (ray : Ray) (t_min t_max : ℝ) :
    Option (HitRecord × α) :=
  World.traceAux ray t_min t_max objects none

/-- Constant `std::f64::MAX`, the upper ray parameter bound used by `ray_color`. -/
def f64Max : ℝ := 2 ^ 1024 - 2 ^ 971

/-- Integrator `ray_color` (src/main.rs): bounce-budget exhaustion returns black; a hit
scatters via the material (consuming the draw `tape d` at depth `d + 1`) and
multiplies the recursive color componentwise by the attenuation, or returns
black on absorption; a miss returns the white-to-blue background gradient. -/
def ray_color (tape : ℕ → Vec3) (world : List (Sphere × Material)) :
    ℕ → Ray → Vec3
  | 0, _ => ⟨0, 0, 0⟩
  | d + 1, ray =>
    match World.trace world ray 0.001 f64Max with
    | some (rec, material) =>
      match Material.scatter material (tape d) ray rec with
      | some (scatter, attenuation) =>
        let scatter_color := ray_color tape world d scatter
        ⟨scatter_color.x * attenuation.x, scatter_color.y * attenuation.y,
          scatter_color.z * attenuation.z⟩
      | none => ⟨0, 0, 0⟩
    | none =>
      let unit_direction := ray.direction.normalized
      let t := 0.5 * (unit_direction.y + 1)
      let white : Vec3 := ⟨1, 1, 1⟩
      let blue : Vec3 := ⟨0.5, 0.7, 1⟩
      white * (1 - t) + blue * t

/-- Camera state (src/camera.rs): constructor parameters plus the derived
viewport vectors recomputed by `update_perspective`. -/
structure Camera where
  width : ℝ
  height : ℝ
  vfov : ℝ
  aperture : ℝ
  focus_distance : ℝ
  lookfrom : Vec3
  lookat : Vec3
  up : Vec3
  w : Vec3
  u : Vec3
  v : Vec3
  lower_left_corner : Vec3
  horizontal : Vec3
  vertical : Vec3

/-- Perspective rebuild `Camera::update_perspective` (src/camera.rs): rebuild the orthonormal basis and
the viewport vectors from the placement parameters. -/
def Camera.update_perspective (cam : Camera) : Camera :=
  let aspect := cam.width / cam.height
  let h := Real.tan (cam.vfov / 2)
  let height := cam.height * h
  let width := height * aspect
  let w := (cam.lookfrom - cam.lookat).normalized
  let u := (Vec3.cross cam.up w).normalized
  let v := Vec3.cross w u
  let horizontal := u * width * cam.focus_distance
  let vertical := v * height * cam.focus_distance
  let lower_left_corner :=
    cam.lookfrom - horizontal / (2 : ℝ) - vertical / (2 : ℝ) - w * cam.focus_distance
  { cam with
      w := w, u := u, v := v,
      horizontal := horizontal, vertical := vertical,
      lower_left_corner := lower_left_corner }

/-- Example sphere of radius 1 centered at `(0,0,-2)`. -/
def exSphere : Sphere := ⟨⟨0, 0, -2⟩, 1⟩

/-- Example ray from the origin straight down the negative z axis. -/
def exRay : Ray := ⟨⟨0, 0, 0⟩, ⟨0, 0, -1⟩⟩

/-- The hit record `exSphere.is_hit exRay` produces: front-face hit at `t = 1`. -/
def exRec : HitRecord := ⟨⟨0, 0, -1⟩, ⟨0, 0, 1⟩, 1, true⟩

/-- Example ray whose unit direction `(4/5, 0, -3/5)` meets a `z`-axis normal at
`cosθ = 3/5`, `sinθ = 4/5`. -/
def exDielRay : Ray := ⟨⟨0, 0, 0⟩, ⟨4 / 5, 0, -(3 / 5)⟩⟩

/-- Example back-face hit record (`front_face = false`) with unit normal `(0,0,1)`. -/
def exDielRec : HitRecord := ⟨⟨0, 0, 0⟩, ⟨0, 0, 1⟩, 1, false⟩

/-- Example camera state before `update_perspective`: viewport `4 × 2`,
`vfov = π/2`, focus distance 10, placed at `(0,0,1)` looking at the origin with
up `(0,1,0)`; derived fields still hold the zero vectors `Camera::new` starts from. -/
def exCamera : Camera :=
  ⟨4, 2, Real.pi / 2, 0, 10, ⟨0, 0, 1⟩, ⟨0, 0, 0⟩, ⟨0, 1, 0⟩,
    ⟨0, 0, 0⟩, ⟨0, 0, 0⟩, ⟨0, 0, 0⟩, ⟨0, 0, 0⟩, ⟨0, 0, 0⟩, ⟨0, 0, 0⟩⟩

@[simp] theorem Vec3.add_def (u v : Vec3) : u + v = ⟨u.x + v.x, u.y + v.y, u.z + v.z⟩ := rfl

@[simp] theorem Vec3.sub_def (u v : Vec3) : u - v = ⟨u.x - v.x, u.y - v.y, u.z - v.z⟩ := rfl

@[simp] theorem Vec3.neg_def (u : Vec3) : -u = ⟨-u.x, -u.y, -u.z⟩ := rfl

@[simp] theorem Vec3.mul_def (u : Vec3) (c : ℝ) : u * c = ⟨u.x * c, u.y * c, u.z * c⟩ := rfl

@[simp] theorem Vec3.div_def (u : Vec3) (c : ℝ) : u / c = ⟨u.x / c, u.y / c, u.z / c⟩ := rfl

/-- Case-split form of `Sphere.is_hit`: a three-way case split: negative discriminant rejects, else the
first root is taken when inside `[t_min, t_max]`, else the second, else no hit. -/
theorem Sphere.is_hit_cases (s : Sphere) (ray : Ray) (t_min t_max : ℝ) :
    s.is_hit ray t_min t_max =
      if Sphere.disc s ray < 0 then none
      else if t_min ≤ s.root1 ray ∧ s.root1 ray ≤ t_max then some (s.mkRec ray (s.root1 ray))
      else if t_min ≤ s.root2 ray ∧ s.root2 ray ≤ t_max then some (s.mkRec ray (s.root2 ray))
      else none := by
  have key : ∀ r : ℝ, (r < t_min ∨ r > t_max) ↔ ¬(t_min ≤ r ∧ r ≤ t_max) := by
    intro r
    constructor
    · rintro (h | h) ⟨h1, h2⟩
      · exact absurd h1 (not_le.mpr h)
      · exact absurd h2 (not_le.mpr h)
    · intro h
      rcases not_and_or.mp h with h | h
      · exact Or.inl (not_le.mp h)
      · exact Or.inr (not_le.mp h)
  simp only [Sphere.is_hit, Sphere.disc, Sphere.root1, Sphere.root2, Sphere.mkRec]
  simp only [key]
  split_ifs <;> rfl

@[simp] theorem Sphere.mkRec_t (s : Sphere) (ray : Ray) (root : ℝ) :
    (s.mkRec ray root).t = root := rfl

theorem Sphere.root1_le_root2 (s : Sphere) (ray : Ray)
    (ha : 0 < ray.direction.length_squared) : s.root1 ray ≤ s.root2 ray := by
  simp only [Sphere.root1, Sphere.root2]
  have hs := Real.sqrt_nonneg (s.disc ray)
  exact (div_le_div_iff_of_pos_right ha).mpr (by linarith)

/-- Full characterisation of a successful `Sphere::is_hit`: the discriminant is
nonnegative and the record comes from the first root inside the window, or from
the second root while the first undershoots `t_min`. -/
theorem Sphere.is_hit_some_iff (s : Sphere) (ray : Ray) (t_min t_max : ℝ)
    (rec : HitRecord) (ha : 0 < ray.direction.length_squared) :
    s.is_hit ray t_min t_max = some rec ↔
      ¬s.disc ray < 0 ∧
        ((t_min ≤ s.root1 ray ∧ s.root1 ray ≤ t_max ∧ rec = s.mkRec ray (s.root1 ray)) ∨
          (s.root1 ray < t_min ∧ t_min ≤ s.root2 ray ∧ s.root2 ray ≤ t_max ∧
            rec = s.mkRec ray (s.root2 ray))) := by
  have h12 := s.root1_le_root2 ray ha
  rw [Sphere.is_hit_cases]
  split_ifs with h1 h2 h3
  · simp [h1]
  · constructor
    · intro h
      exact ⟨h1, Or.inl ⟨h2.1, h2.2, (Option.some.injEq _ _).mp h |>.symm⟩⟩
    · rintro ⟨-, ⟨-, -, rfl⟩ | ⟨hlt, -, -, rfl⟩⟩
      · rfl
      · exact absurd h2.1 (not_le.mpr hlt)
  · constructor
    · intro h
      refine ⟨h1, Or.inr ⟨?_, h3.1, h3.2, (Option.some.injEq _ _).mp h |>.symm⟩⟩
      rcases not_and_or.mp h2 with h | h
      · exact not_le.mp h
      · exfalso
        have h4 : t_max < s.root1 ray := not_le.mp h
        have h5 := h3.2
        linarith
    · rintro ⟨-, ⟨ha1, ha2, rfl⟩ | ⟨-, -, -, rfl⟩⟩
      · exact absurd ⟨ha1, ha2⟩ h2
      · rfl
  · constructor
    · intro h
      cases h
    · rintro ⟨-, ⟨ha1, ha2, rfl⟩ | ⟨-, hb1, hb2, rfl⟩⟩
      · exact absurd ⟨ha1, ha2⟩ h2
      · exact absurd ⟨hb1, hb2⟩ h3

/-- A successful hit's `t` lies inside the tested window. -/
theorem Sphere.is_hit_t_mem (s : Sphere) (ray : Ray) (t_min t_max : ℝ)
    (rec : HitRecord) (ha : 0 < ray.direction.length_squared)
    (h : s.is_hit ray t_min t_max = some rec) :
    t_min ≤ rec.t ∧ rec.t ≤ t_max := by
  rcases (s.is_hit_some_iff ray t_min t_max rec ha).mp h with
    ⟨-, ⟨h1, h2, rfl⟩ | ⟨-, h1, h2, rfl⟩⟩ <;> simpa using ⟨h1, h2⟩

/-- Widening the upper bound of the window preserves a successful hit unchanged. -/
theorem Sphere.is_hit_grow (s : Sphere) (ray : Ray) (t_min tm t_max : ℝ)
    (rec : HitRecord) (ha : 0 < ray.direction.length_squared) (hle : tm ≤ t_max)
    (h : s.is_hit ray t_min tm = some rec) :
    s.is_hit ray t_min t_max = some rec := by
  rw [Sphere.is_hit_some_iff _ _ _ _ _ ha] at h ⊢
  obtain ⟨hd, hcase⟩ := h
  refine ⟨hd, ?_⟩
  rcases hcase with ⟨h1, h2, hr⟩ | ⟨h0, h1, h2, hr⟩
  · exact Or.inl ⟨h1, h2.trans hle, hr⟩
  · exact Or.inr ⟨h0, h1, h2.trans hle, hr⟩

/-- Shrinking the upper bound of the window down to (at least) the hit's `t`
preserves a successful hit unchanged. -/
theorem Sphere.is_hit_shrink (s : Sphere) (ray : Ray) (t_min tm t_max : ℝ)
    (rec : HitRecord) (ha : 0 < ray.direction.length_squared)
    (h : s.is_hit ray t_min t_max = some rec) (hrec : rec.t ≤ tm) :
    s.is_hit ray t_min tm = some rec := by
  rw [Sphere.is_hit_some_iff _ _ _ _ _ ha] at h ⊢
  obtain ⟨hd, hcase⟩ := h
  refine ⟨hd, ?_⟩
  rcases hcase with ⟨h1, h2, hr⟩ | ⟨h0, h1, h2, hr⟩
  · refine Or.inl ⟨h1, ?_, hr⟩
    rw [hr] at hrec
    simpa using hrec
  · refine Or.inr ⟨h0, h1, ?_, hr⟩
    rw [hr] at hrec
    simpa using hrec

/-- Loop invariant of `World::trace`: starting from a best-so-far `hit` whose `t`
lies in the window, the loop returns `none` exactly when it started with nothing
and every remaining surface misses the full window; and any returned hit lies in
the window, originates from the incoming best or a remaining surface, does not
exceed the incoming best's `t`, and is minimal against every remaining surface's
full-window hit. -/
theorem World.traceAux_spec {α : Type} (ray : Ray) (t_min t_max : ℝ)
    (ha : 0 < ray.direction.length_squared) :
    ∀ (rest : List (Sphere × α)) (hit : Option (HitRecord × α)),
      (∀ rec m, hit = some (rec, m) → t_min ≤ rec.t ∧ rec.t ≤ t_max) →
      ((World.traceAux ray t_min t_max rest hit = none ↔
          hit = none ∧ ∀ sm ∈ rest, Sphere.is_hit sm.1 ray t_min t_max = none) ∧
        ∀ rec m, World.traceAux ray t_min t_max rest hit = some (rec, m) →
          (t_min ≤ rec.t ∧ rec.t ≤ t_max) ∧
            (hit = some (rec, m) ∨
              ∃ sm ∈ rest, Sphere.is_hit sm.1 ray t_min t_max = some rec ∧ sm.2 = m) ∧
            (∀ rec₀ m₀, hit = some (rec₀, m₀) → rec.t ≤ rec₀.t) ∧
            ∀ sm ∈ rest, ∀ rec', Sphere.is_hit sm.1 ray t_min t_max = some rec' →
              rec.t ≤ rec'.t) := by
  intro rest
  induction rest with
  | nil =>
    intro hit pre
    refine ⟨by simp [World.traceAux], ?_⟩
    intro rec m h
    simp only [World.traceAux] at h
    refine ⟨pre rec m h, Or.inl h, ?_, by simp⟩
    intro rec₀ m₀ h₀
    rw [h] at h₀
    obtain ⟨rfl, -⟩ := Prod.mk.injEq .. ▸ Option.some.injEq _ _ ▸ h₀
    exact le_rfl
  | cons sm rest ih =>
    intro hit pre
    match hit with
    | none =>
      cases hh : Sphere.is_hit sm.1 ray t_min t_max with
      | none =>
        have step :
            World.traceAux ray t_min t_max (sm :: rest) none =
              World.traceAux ray t_min t_max rest none := by
          simp only [World.traceAux, hh]
        obtain ⟨ihn, ihs⟩ := ih none (by simp)
        constructor
        · rw [step, ihn]
          simp only [true_and, List.mem_cons]
          constructor
          · intro h
            rintro sm' (rfl | hm)
            · exact hh
            · exact h sm' hm
          · intro h sm' hm
            exact h sm' (Or.inr hm)
        · intro rec m h
          rw [step] at h
          obtain ⟨hrange, hex, -, hmin⟩ := ihs rec m h
          refine ⟨hrange, ?_, by simp, ?_⟩
          · rcases hex with h' | ⟨sm', hm', h'⟩
            · cases h'
            · exact Or.inr ⟨sm', List.mem_cons_of_mem _ hm', h'⟩
          · intro sm' hmem rec' h'
            rcases List.mem_cons.mp hmem with rfl | hm'
            · rw [hh] at h'
              cases h'
            · exact hmin sm' hm' rec' h'
      | some r =>
        have step :
            World.traceAux ray t_min t_max (sm :: rest) none =
              World.traceAux ray t_min t_max rest (some (r, sm.2)) := by
          simp only [World.traceAux, hh]
        have hr := Sphere.is_hit_t_mem sm.1 ray t_min t_max r ha hh
        obtain ⟨ihn, ihs⟩ := ih (some (r, sm.2)) (by
          rintro rec m hm
          obtain ⟨rfl, -⟩ := Prod.mk.injEq .. ▸ Option.some.injEq _ _ ▸ hm
          exact hr)
        constructor
        · rw [step, ihn]
          simp only [List.mem_cons]
          constructor
          · rintro ⟨h, -⟩
            cases h
          · rintro ⟨-, h⟩
            exact absurd (h sm (Or.inl rfl)) (by simp [hh])
        · intro rec m h
          rw [step] at h
          obtain ⟨hrange, hex, hbd, hmin⟩ := ihs rec m h
          refine ⟨hrange, ?_, by simp, ?_⟩
          · rcases hex with h' | ⟨sm', hm', h'⟩
            · obtain ⟨rfl, rfl⟩ := Prod.mk.injEq .. ▸ Option.some.injEq _ _ ▸ h'
              exact Or.inr ⟨sm, List.mem_cons_self sm rest, hh, rfl⟩
            · exact Or.inr ⟨sm', List.mem_cons_of_mem _ hm', h'⟩
          · intro sm' hmem rec' h'
            rcases List.mem_cons.mp hmem with rfl | hm'
            · rw [hh] at h'
              obtain rfl := (Option.some.injEq _ _).mp h'
              exact hbd _ _ rfl
            · exact hmin sm' hm' rec' h'
    | some (rec₀, m₀) =>
      have hb₀ := pre rec₀ m₀ rfl
      cases hh : Sphere.is_hit sm.1 ray t_min rec₀.t with
      | none =>
        have step :
            World.traceAux ray t_min t_max (sm :: rest) (some (rec₀, m₀)) =
              World.traceAux ray t_min t_max rest (some (rec₀, m₀)) := by
          simp only [World.traceAux, hh]
        obtain ⟨ihn, ihs⟩ := ih (some (rec₀, m₀)) pre
        constructor
        · rw [step, ihn]
          simp
        · intro rec m h
          rw [step] at h
          obtain ⟨hrange, hex, hbd, hmin⟩ := ihs rec m h
          have hle₀ : rec.t ≤ rec₀.t := hbd rec₀ m₀ rfl
          refine ⟨hrange, ?_, ?_, ?_⟩
          · rcases hex with h' | ⟨sm', hm', h'⟩
            · exact Or.inl h'
            · exact Or.inr ⟨sm', List.mem_cons_of_mem _ hm', h'⟩
          · intro rec₀' m₀' h₀'
            obtain ⟨rfl, -⟩ := Prod.mk.injEq .. ▸ Option.some.injEq _ _ ▸ h₀'
            exact hle₀
          · intro sm' hmem rec' h'
            rcases List.mem_cons.mp hmem with rfl | hm'
            · by_cases hc : rec'.t ≤ rec₀.t
              · rw [Sphere.is_hit_shrink sm'.1 ray t_min rec₀.t t_max rec' ha h' hc] at hh
                cases hh
              · exact hle₀.trans (not_le.mp hc).le
            · exact hmin sm' hm' rec' h'
      | some r =>
        have step :
            World.traceAux ray t_min t_max (sm :: rest) (some (rec₀, m₀)) =
              World.traceAux ray t_min t_max rest (some (r, sm.2)) := by
          simp only [World.traceAux, hh]
        have hr := Sphere.is_hit_t_mem sm.1 ray t_min rec₀.t r ha hh
        have hfull : Sphere.is_hit sm.1 ray t_min t_max = some r :=
          Sphere.is_hit_grow sm.1 ray t_min rec₀.t t_max r ha hb₀.2 hh
        obtain ⟨ihn, ihs⟩ := ih (some (r, sm.2)) (by
          rintro rec m hm
          obtain ⟨rfl, -⟩ := Prod.mk.injEq .. ▸ Option.some.injEq _ _ ▸ hm
          exact ⟨hr.1, hr.2.trans hb₀.2⟩)
        constructor
        · rw [step, ihn]
          simp
        · intro rec m h
          rw [step] at h
          obtain ⟨hrange, hex, hbd, hmin⟩ := ihs rec m h
          have hler : rec.t ≤ r.t := hbd r sm.2 rfl
          refine ⟨hrange, ?_, ?_, ?_⟩
          · rcases hex with h' | ⟨sm', hm', h'⟩
            · obtain ⟨rfl, rfl⟩ := Prod.mk.injEq .. ▸ Option.some.injEq _ _ ▸ h'
              exact Or.inr ⟨sm, List.mem_cons_self sm rest, hfull, rfl⟩
            · exact Or.inr ⟨sm', List.mem_cons_of_mem _ hm', h'⟩
          · intro rec₀' m₀' h₀'
            obtain ⟨rfl, -⟩ := Prod.mk.injEq .. ▸ Option.some.injEq _ _ ▸ h₀'
            exact hler.trans hr.2
          · intro sm' hmem rec' h'
            rcases List.mem_cons.mp hmem with rfl | hm'
            · rw [hfull] at h'
              obtain rfl := (Option.some.injEq _ _).mp h'
              exact hler
            · exact hmin sm' hm' rec' h'

theorem Vec3.length_squared_nonneg (u : Vec3) : 0 ≤ u.length_squared := by
  simp only [Vec3.length_squared]
  nlinarith [sq_nonneg u.x, sq_nonneg u.y, sq_nonneg u.z]

theorem Vec3.length_squared_pos (u : Vec3) (h : u ≠ ⟨0, 0, 0⟩) :
    0 < u.length_squared := by
  rcases lt_or_eq_of_le (Vec3.length_squared_nonneg u) with hlt | heq
  · exact hlt
  · exfalso
    apply h
    have hx : u.x = 0 ∧ u.y = 0 ∧ u.z = 0 := by
      simp only [Vec3.length_squared] at heq
      refine ⟨?_, ?_, ?_⟩ <;> nlinarith [sq_nonneg u.x, sq_nonneg u.y, sq_nonneg u.z]
    obtain ⟨h1, h2, h3⟩ := hx
    cases u with
    | mk ux uy uz =>
      rw [Vec3.mk.injEq]
      exact ⟨h1, h2, h3⟩

theorem Vec3.length_squared_smul (u : Vec3) (c : ℝ) :
    (u * c).length_squared = u.length_squared * c ^ 2 := by
  simp only [Vec3.mul_def, Vec3.length_squared]
  ring

theorem Vec3.length_squared_sdiv (u : Vec3) (c : ℝ) :
    (u / c).length_squared = u.length_squared / c ^ 2 := by
  simp only [Vec3.div_def, Vec3.length_squared]
  ring

theorem Vec3.length_squared_normalized (u : Vec3) (h : u ≠ ⟨0, 0, 0⟩) :
    u.normalized.length_squared = 1 := by
  have hp := Vec3.length_squared_pos u h
  simp only [Vec3.normalized, Vec3.length, Vec3.length_squared_sdiv]
  rw [Real.sq_sqrt (Vec3.length_squared_nonneg u)]
  exact div_self (ne_of_gt hp)

theorem Vec3.dot_sdiv_right (u v : Vec3) (c : ℝ) :
    Vec3.dot u (v / c) = Vec3.dot u v / c := by
  simp only [Vec3.div_def, Vec3.dot]
  ring

theorem Vec3.dot_cross_second (u v : Vec3) : Vec3.dot v (Vec3.cross u v) = 0 := by
  simp only [Vec3.dot, Vec3.cross]
  ring

theorem Vec3.cross_length_squared (u v : Vec3) :
    (Vec3.cross u v).length_squared =
      u.length_squared * v.length_squared - Vec3.dot u v ^ 2 := by
  simp only [Vec3.cross, Vec3.length_squared, Vec3.dot]
  ring

theorem Vec3.dot_neg_right (u v : Vec3) : Vec3.dot u (-v) = -Vec3.dot u v := by
  simp only [Vec3.neg_def, Vec3.dot]
  ring

/-- Evaluation of the example intersection: `exRay` hits `exSphere` at `t = 1`
for any window `[0, t_max]` with `1 ≤ t_max`, producing `exRec`. -/
theorem exSphere_is_hit (t_max : ℝ) (h : 1 ≤ t_max) :
    exSphere.is_hit exRay 0 t_max = some exRec := by
  have hd : exSphere.disc exRay = 1 := by
    simp only [Sphere.disc, exSphere, exRay, Vec3.dot, Vec3.length_squared, Vec3.sub_def]
    norm_num
  have hr1 : exSphere.root1 exRay = 1 := by
    simp only [Sphere.root1]
    rw [hd, Real.sqrt_one]
    simp only [exSphere, exRay, Vec3.dot, Vec3.length_squared, Vec3.sub_def]
    norm_num
  have hmk : exSphere.mkRec exRay 1 = exRec := by
    simp only [Sphere.mkRec, HitRecord.new, Ray.at, exSphere, exRay, exRec, Vec3.dot,
      Vec3.add_def, Vec3.sub_def, Vec3.mul_def, Vec3.div_def]
    norm_num
  rw [Sphere.is_hit_cases, hd, hr1, if_neg (by norm_num), if_pos ⟨by norm_num, h⟩, hmk]

/-- Claim C4: for every sphere, ray and window, `Sphere::is_hit` returns no hit when the
discriminant `half_b² - a*c` is negative; otherwise it selects the smaller-root
formula `(-half_b - sqrt(disc))/a` if that lies inside `[t_min, t_max]`, else the
larger-root formula `(-half_b + sqrt(disc))/a` if that lies inside, else no hit;
on success the record is built at the chosen root from the ray point and the
outward normal `(point - center) / radius`. -/
theorem c4_sphere_is_hit_follows_algorithm (s : Sphere) (ray : Ray) (t_min t_max : ℝ) :
    s.is_hit ray t_min t_max =
      if Sphere.disc s ray < 0 then none
      else if t_min ≤ s.root1 ray ∧ s.root1 ray ≤ t_max then
        some (HitRecord.new (ray.at (s.root1 ray))
          ((ray.at (s.root1 ray) - s.center) / s.radius) (s.root1 ray) ray)
      else if t_min ≤ s.root2 ray ∧ s.root2 ray ≤ t_max then
        some (HitRecord.new (ray.at (s.root2 ray))
          ((ray.at (s.root2 ray) - s.center) / s.radius) (s.root2 ray) ray)
      else none :=
  Sphere.is_hit_cases s ray t_min t_max

/-- Claim C5: `HitRecord::new` sets `front_face = true` and keeps the outward normal
exactly when `dot(ray.direction, outward_normal) < 0`, otherwise sets
`front_face = false` and stores the negated outward normal; consequently
`dot(ray.direction, recorded_normal) ≤ 0` holds for every constructed record. -/
theorem c5_hit_record_orientation_invariant (point outward_normal : Vec3) (t : ℝ)
    (ray : Ray) :
    ((HitRecord.new point outward_normal t ray).front_face = true ↔
        Vec3.dot ray.direction outward_normal < 0) ∧
      (HitRecord.new point outward_normal t ray).normal =
        (if Vec3.dot ray.direction outward_normal < 0 then outward_normal
          else -outward_normal) ∧
      Vec3.dot ray.direction (HitRecord.new point outward_normal t ray).normal ≤ 0 := by
  by_cases hd : Vec3.dot ray.direction outward_normal < 0
  · refine ⟨by simp [HitRecord.new, hd], by simp [HitRecord.new, hd], ?_⟩
    have hn : (HitRecord.new point outward_normal t ray).normal = outward_normal := by
      simp [HitRecord.new, hd]
    rw [hn]
    exact hd.le
  · refine ⟨by simp [HitRecord.new, hd], by simp [HitRecord.new, hd], ?_⟩
    have hn : (HitRecord.new point outward_normal t ray).normal = -outward_normal := by
      simp [HitRecord.new, hd]
    rw [hn, Vec3.dot_neg_right]
    linarith [not_lt.mp hd]

/-- Claim C7: `Metal::scatter` returns `None` exactly when the fuzzed mirror direction
(reflection of the normalised incoming direction plus `fuzz` times the drawn
in-unit-sphere vector) satisfies `dot(direction, normal) ≤ 0`, and otherwise
returns `Some` of that scattered ray with attenuation equal to the albedo. -/
theorem c7_metal_scatter_absorbs_iff_behind_surface (albedo : Vec3) (fuzz : ℝ)
    (rnd : Vec3) (ray : Ray) (rec : HitRecord) :
    Metal.scatter albedo fuzz rnd ray rec =
      if Vec3.dot (Metal.reflect ray.direction.normalized rec.normal + rnd * fuzz)
          rec.normal ≤ 0 then none
      else
        some (⟨rec.point, Metal.reflect ray.direction.normalized rec.normal + rnd * fuzz⟩,
          albedo) := rfl

/-- Claim C8: for every incoming ray, hit record and random draw, `Lambertian::scatter`
returns `Some` with attenuation exactly the albedo, and `Dielectric::scatter`
returns `Some` with attenuation exactly `(1,1,1)`. -/
theorem c8_lambertian_dielectric_always_scatter (albedo rnd : Vec3) (ray : Ray)
    (rec : HitRecord) (refraction : ℝ) :
    (∃ scat, Lambertian.scatter albedo rnd ray rec = some (scat, albedo)) ∧
      ∃ scat, Dielectric.scatter refraction ray rec = some (scat, ⟨1, 1, 1⟩) :=
  ⟨⟨_, rfl⟩, ⟨_, rfl⟩⟩

/-- Claim C10: the draw `(0, 0, -1/2)` lies strictly inside the unit sphere (a value the
rejection sampler can produce) and normalises to the unit vector exactly opposite
the hit normal `(0,0,1)` of `exRec`; on it `Lambertian::scatter` returns `Some`
with a zero scattered direction — no near-zero guard rejects the degenerate case. -/
theorem c10_lambertian_scatters_zero_direction :
    Vec3.length_squared ⟨0, 0, -(1 / 2)⟩ < 1 ∧
      Vec3.normalized ⟨0, 0, -(1 / 2)⟩ = -exRec.normal ∧
      Lambertian.scatter ⟨0.5, 0.5, 0.5⟩ ⟨0, 0, -(1 / 2)⟩ exRay exRec =
        some (⟨exRec.point, ⟨0, 0, 0⟩⟩, ⟨0.5, 0.5, 0.5⟩) := by
  have hs : Real.sqrt (Vec3.length_squared ⟨0, 0, -(1 / 2)⟩) = 1 / 2 := by
    rw [show Vec3.length_squared ⟨0, 0, -(1 / 2)⟩ = (1 / 2) ^ 2 by
      simp only [Vec3.length_squared]; norm_num]
    exact Real.sqrt_sq (by norm_num)
  refine ⟨?_, ?_, ?_⟩
  · simp only [Vec3.length_squared]
    norm_num
  · simp only [Vec3.normalized, Vec3.length, hs, exRec, Vec3.div_def, Vec3.neg_def,
      Vec3.mk.injEq]
    norm_num
  · simp only [Lambertian.scatter, Vec3.normalized, Vec3.length, hs, exRec, Vec3.div_def,
      Vec3.add_def]
    norm_num

/-- Claim C2: for every world, window, and ray with nonzero direction, `World::trace`
returns `none` exactly when no surface reports a hit on `[t_min, t_max]`; any
returned pair is some surface's full-window hit together with its material, and
its `t` is minimal among all surfaces' full-window hits. -/
theorem c2_world_trace_nearest_hit {α : Type} (objects : List (Sphere × α))
    (ray : Ray) (t_min t_max : ℝ) (ha : 0 < ray.direction.length_squared) :
    (World.trace objects ray t_min t_max = none ↔
        ∀ sm ∈ objects, Sphere.is_hit sm.1 ray t_min t_max = none) ∧
      ∀ rec m, World.trace objects ray t_min t_max = some (rec, m) →
        (∃ sm ∈ objects, Sphere.is_hit sm.1 ray t_min t_max = some rec ∧ sm.2 = m) ∧
          ∀ sm ∈ objects, ∀ rec', Sphere.is_hit sm.1 ray t_min t_max = some rec' →
            rec.t ≤ rec'.t := by
  obtain ⟨hn, hs⟩ := World.traceAux_spec ray t_min t_max ha objects none (by simp)
  constructor
  · rw [World.trace, hn]
    simp
  · intro rec m h
    obtain ⟨-, hex, -, hmin⟩ := hs rec m h
    refine ⟨?_, hmin⟩
    rcases hex with h' | h'
    · cases h'
    · exact h'

/-- Witness for C2 at a concrete world, ray and window. -/
theorem c2_world_trace_nearest_hit_witness :
    (0 : ℝ) < exRay.direction.length_squared ∧
      ((World.trace [(exSphere, (0 : ℕ))] exRay 0 100 = none ↔
          ∀ sm ∈ [(exSphere, (0 : ℕ))], Sphere.is_hit sm.1 exRay 0 100 = none) ∧
        ∀ rec m, World.trace [(exSphere, (0 : ℕ))] exRay 0 100 = some (rec, m) →
          (∃ sm ∈ [(exSphere, (0 : ℕ))],
              Sphere.is_hit sm.1 exRay 0 100 = some rec ∧ sm.2 = m) ∧
            ∀ sm ∈ [(exSphere, (0 : ℕ))], ∀ rec',
              Sphere.is_hit sm.1 exRay 0 100 = some rec' → rec.t ≤ rec'.t) :=
  ⟨by norm_num [exRay, Vec3.length_squared],
    c2_world_trace_nearest_hit [(exSphere, (0 : ℕ))] exRay 0 100
      (by norm_num [exRay, Vec3.length_squared])⟩

/-- Counterexample to claim C3: two identical spheres whose hits occur at exactly equal
`t = 1`; `World::trace` returns the second-inserted pair's material, not the
first-inserted one the claim demands. -/
theorem c3_counterexample_equal_t_returns_later_pair :
    (World.trace [(exSphere, (0 : ℕ)), (exSphere, 1)] exRay 0 100).map Prod.snd =
        some 1 ∧
      (World.trace [(exSphere, (0 : ℕ)), (exSphere, 1)] exRay 0 100).map Prod.snd ≠
        some 0 := by
  have h1 := exSphere_is_hit 100 (by norm_num)
  have h2 := exSphere_is_hit 1 le_rfl
  have ht : World.trace [(exSphere, (0 : ℕ)), (exSphere, 1)] exRay 0 100 =
      some (exRec, 1) := by
    simp only [World.trace, World.traceAux, h1]
    rw [show exRec.t = (1 : ℝ) from rfl, h2]
  rw [ht]
  exact ⟨rfl, by simp⟩

/-- Amended claim C3: when two surfaces' full-window hits have exactly equal `t`, the
later insertion wins the tie: `Sphere::is_hit` accepts a root equal to `t_max`,
so the second candidate replaces the stored best and `World::trace` returns the
second pair. -/
theorem c3_amended_equal_t_later_insertion_wins {α : Type} (s₁ s₂ : Sphere)
    (m₁ m₂ : α) (ray : Ray) (t_min t_max : ℝ)
    (ha : 0 < ray.direction.length_squared) (rec₁ rec₂ : HitRecord)
    (h₁ : s₁.is_hit ray t_min t_max = some rec₁)
    (h₂ : s₂.is_hit ray t_min t_max = some rec₂)
    (ht : rec₂.t = rec₁.t) :
    World.trace [(s₁, m₁), (s₂, m₂)] ray t_min t_max = some (rec₂, m₂) := by
  have h₂' : s₂.is_hit ray t_min rec₁.t = some rec₂ :=
    Sphere.is_hit_shrink s₂ ray t_min rec₁.t t_max rec₂ ha h₂ (le_of_eq ht)
  simp only [World.trace, World.traceAux, h₁, h₂']

/-- Witness for the amended C3 at a concrete world of two tied spheres. -/
theorem c3_amended_equal_t_later_insertion_wins_witness :
    World.trace [(exSphere, (0 : ℕ)), (exSphere, 1)] exRay 0 100 = some (exRec, 1) :=
  c3_amended_equal_t_later_insertion_wins exSphere exSphere 0 1 exRay 0 100
    (by norm_num [exRay, Vec3.length_squared]) exRec exRec
    (exSphere_is_hit 100 (by norm_num)) (exSphere_is_hit 100 (by norm_num)) rfl

/-- Claim C6: with an empty world, any bounce budget of at least 1 and any ray with
nonzero direction, `ray_color` returns exactly the background blend
`white*(1-t) + blue*t` with `t = 0.5*(normalized_direction.y + 1)`. -/
theorem c6_empty_world_background (tape : ℕ → Vec3) (ray : Ray) (depth : ℕ)
    (hdepth : 1 ≤ depth) (_hdir : ray.direction ≠ ⟨0, 0, 0⟩) :
    ray_color tape [] depth ray =
      (⟨1, 1, 1⟩ : Vec3) * (1 - 0.5 * (ray.direction.normalized.y + 1)) +
        (⟨0.5, 0.7, 1⟩ : Vec3) * (0.5 * (ray.direction.normalized.y + 1)) := by
  obtain ⟨d, rfl⟩ : ∃ d, depth = d + 1 :=
    ⟨depth - 1, (Nat.succ_pred_eq_of_pos hdepth).symm⟩
  simp only [ray_color, World.trace, World.traceAux]

/-- Witness for C6 at a concrete tape, ray and depth. -/
theorem c6_empty_world_background_witness :
    1 ≤ 1 ∧ (⟨⟨0, 0, 0⟩, ⟨0, 3, 4⟩⟩ : Ray).direction ≠ ⟨0, 0, 0⟩ ∧
      ray_color (fun _ => ⟨0, 0, 0⟩) [] 1 ⟨⟨0, 0, 0⟩, ⟨0, 3, 4⟩⟩ =
        (⟨1, 1, 1⟩ : Vec3) *
            (1 - 0.5 * ((⟨⟨0, 0, 0⟩, ⟨0, 3, 4⟩⟩ : Ray).direction.normalized.y + 1)) +
          (⟨0.5, 0.7, 1⟩ : Vec3) *
            (0.5 * ((⟨⟨0, 0, 0⟩, ⟨0, 3, 4⟩⟩ : Ray).direction.normalized.y + 1)) :=
  ⟨le_rfl, by norm_num [Vec3.mk.injEq],
    c6_empty_world_background (fun _ => ⟨0, 0, 0⟩) ⟨⟨0, 0, 0⟩, ⟨0, 3, 4⟩⟩ 1 le_rfl
      (by norm_num [Vec3.mk.injEq])⟩

/-- Claim C1, evaluated at the failing input: `exDielRec` is a back-face hit whose
incidence sine `sqrt(1 - cosθ²) = 4/5` exceeds `1/1.5`, so the claim — and the
code's own comments — require the reflect branch; because the code computes
`sin_theta` as `1 - cosθ²` without the square root, `Dielectric::scatter` instead
takes the refract branch, returning the Snell direction `(6/5, 0, -sqrt(11/25))`,
which is not the mirror reflection `(4/5, 0, 3/5)`. -/
theorem c1_dielectric_refracts_despite_tir_condition :
    exDielRec.front_face = false ∧
      1 / 1.5 <
        Real.sqrt (1 - Vec3.dot (-exDielRay.direction.normalized) exDielRec.normal ^ 2) ∧
      Dielectric.scatter 1.5 exDielRay exDielRec =
        some (⟨exDielRec.point, ⟨6 / 5, 0, -Real.sqrt (11 / 25)⟩⟩, ⟨1, 1, 1⟩) ∧
      Metal.reflect exDielRay.direction.normalized exDielRec.normal =
        ⟨4 / 5, 0, 3 / 5⟩ ∧
      (⟨6 / 5, 0, -Real.sqrt (11 / 25)⟩ : Vec3) ≠ ⟨4 / 5, 0, 3 / 5⟩ := by
  have hls : Vec3.length_squared ⟨4 / 5, 0, -(3 / 5)⟩ = 1 := by
    simp only [Vec3.length_squared]
    norm_num
  have hnorm : exDielRay.direction.normalized = ⟨4 / 5, 0, -(3 / 5)⟩ := by
    simp only [exDielRay, Vec3.normalized, Vec3.length, hls, Real.sqrt_one, Vec3.div_def]
    norm_num
  have hcos : Vec3.dot (-(⟨4 / 5, 0, -(3 / 5)⟩ : Vec3)) (⟨0, 0, 1⟩ : Vec3) = 3 / 5 := by
    simp only [Vec3.neg_def, Vec3.dot]
    norm_num
  refine ⟨rfl, ?_, ?_, ?_, ?_⟩
  · rw [hnorm, show exDielRec.normal = (⟨0, 0, 1⟩ : Vec3) from rfl, hcos,
      show (1 : ℝ) - (3 / 5) ^ 2 = (4 / 5) ^ 2 by norm_num,
      Real.sqrt_sq (by norm_num)]
    norm_num
  · have hc : ¬((3 : ℝ) / 5 > 1) := by norm_num
    have hrefract : Dielectric.refract ⟨4 / 5, 0, -(3 / 5)⟩ ⟨0, 0, 1⟩ 1.5 =
        ⟨6 / 5, 0, -Real.sqrt (11 / 25)⟩ := by
      simp only [Dielectric.refract, hcos]
      rw [if_neg hc]
      rw [show ((⟨4 / 5, 0, -(3 / 5)⟩ : Vec3) + (⟨0, 0, 1⟩ : Vec3) * ((3 : ℝ) / 5)) *
            ((1.5 : ℝ)) = (⟨6 / 5, 0, 0⟩ : Vec3) from by
          simp only [Vec3.add_def, Vec3.mul_def, Vec3.mk.injEq]
          norm_num]
      rw [show Vec3.length_squared ⟨6 / 5, 0, 0⟩ = (36 : ℝ) / 25 from by
        simp only [Vec3.length_squared]; norm_num]
      rw [show |1 - (36 : ℝ) / 25| = 11 / 25 from by
        rw [abs_of_nonpos (by norm_num)]; norm_num]
      simp only [Vec3.mul_def, Vec3.add_def, Vec3.mk.injEq]
      norm_num
    have hbranch : ¬((1.5 : ℝ) * (1 - 3 / 5 * (3 / 5)) > 1) := by norm_num
    simp only [Dielectric.scatter, hnorm,
      show exDielRec.front_face = false from rfl,
      show exDielRec.normal = (⟨0, 0, 1⟩ : Vec3) from rfl,
      show exDielRec.point = (⟨0, 0, 0⟩ : Vec3) from rfl,
      hcos, Bool.false_eq_true, if_false]
    rw [if_neg hc, if_neg hbranch, hrefract]
  · rw [hnorm, show exDielRec.normal = (⟨0, 0, 1⟩ : Vec3) from rfl]
    simp only [Metal.reflect, Vec3.dot, Vec3.mul_def, Vec3.sub_def]
    rw [Vec3.mk.injEq]
    norm_num
  · rw [Ne, Vec3.mk.injEq]
    rintro ⟨h6, -, -⟩
    norm_num at h6

/-- Claim C9: for a camera whose stored viewport height is the program's constant 2
(src/main.rs `VIEWPORT_HEIGHT`), any non-degenerate placement (distinct
`lookfrom`/`lookat`, `up` not parallel to the view axis), nonnegative
`tan(vfov/2)`, focus distance and width, `update_perspective` produces a
`vertical` vector of length `2·tan(vfov/2)·focus_distance` and a `horizontal`
vector of that length times the aspect ratio. -/
theorem c9_camera_viewport_dimensions (cam : Camera)
    (hh : cam.height = 2)
    (hlf : cam.lookfrom - cam.lookat ≠ ⟨0, 0, 0⟩)
    (hup : Vec3.cross cam.up ((cam.lookfrom - cam.lookat).normalized) ≠ ⟨0, 0, 0⟩)
    (htan : 0 ≤ Real.tan (cam.vfov / 2))
    (hfd : 0 ≤ cam.focus_distance)
    (hw : 0 ≤ cam.width) :
    (cam.update_perspective).vertical.length =
        2 * Real.tan (cam.vfov / 2) * cam.focus_distance ∧
      (cam.update_perspective).horizontal.length =
        2 * Real.tan (cam.vfov / 2) * (cam.width / cam.height) * cam.focus_distance := by
  have hwls : ((cam.lookfrom - cam.lookat).normalized).length_squared = 1 :=
    Vec3.length_squared_normalized _ hlf
  have huls : ((Vec3.cross cam.up
      ((cam.lookfrom - cam.lookat).normalized)).normalized).length_squared = 1 :=
    Vec3.length_squared_normalized _ hup
  have hdot_normalized : ∀ u v : Vec3, Vec3.dot u v.normalized = Vec3.dot u v / v.length :=
    fun u v => by rw [Vec3.normalized, Vec3.dot_sdiv_right]
  have hdotwu : Vec3.dot ((cam.lookfrom - cam.lookat).normalized)
      ((Vec3.cross cam.up ((cam.lookfrom - cam.lookat).normalized)).normalized) = 0 := by
    rw [hdot_normalized, Vec3.dot_cross_second, zero_div]
  have hvls : (Vec3.cross ((cam.lookfrom - cam.lookat).normalized)
      ((Vec3.cross cam.up
        ((cam.lookfrom - cam.lookat).normalized)).normalized)).length_squared = 1 := by
    rw [Vec3.cross_length_squared, hwls, huls, hdotwu]
    ring
  constructor
  · have hver : (cam.update_perspective).vertical =
        (Vec3.cross ((cam.lookfrom - cam.lookat).normalized)
            ((Vec3.cross cam.up ((cam.lookfrom - cam.lookat).normalized)).normalized)) *
          (cam.height * Real.tan (cam.vfov / 2)) * cam.focus_distance := by
      simp only [Camera.update_perspective]
    rw [hver, Vec3.length, Vec3.length_squared_smul, Vec3.length_squared_smul, hvls,
      one_mul, hh]
    rw [show (2 * Real.tan (cam.vfov / 2)) ^ 2 * cam.focus_distance ^ 2 =
      (2 * Real.tan (cam.vfov / 2) * cam.focus_distance) ^ 2 from by ring]
    exact Real.sqrt_sq (by positivity)
  · have hhor : (cam.update_perspective).horizontal =
        ((Vec3.cross cam.up ((cam.lookfrom - cam.lookat).normalized)).normalized) *
          (cam.height * Real.tan (cam.vfov / 2) * (cam.width / cam.height)) *
          cam.focus_distance := by
      simp only [Camera.update_perspective]
    rw [hhor, Vec3.length, Vec3.length_squared_smul, Vec3.length_squared_smul, huls,
      one_mul, hh]
    rw [show (2 * Real.tan (cam.vfov / 2) * (cam.width / 2)) ^ 2 *
        cam.focus_distance ^ 2 =
      (2 * Real.tan (cam.vfov / 2) * (cam.width / 2) * cam.focus_distance) ^ 2 from by
        ring]
    exact Real.sqrt_sq (by positivity)

/-- Witness for C9 at a concrete camera placement. -/
theorem c9_camera_viewport_dimensions_witness :
    exCamera.height = 2 ∧
      exCamera.lookfrom - exCamera.lookat ≠ (⟨0, 0, 0⟩ : Vec3) ∧
      Vec3.cross exCamera.up
          ((exCamera.lookfrom - exCamera.lookat).normalized) ≠ (⟨0, 0, 0⟩ : Vec3) ∧
      ((exCamera.update_perspective).vertical.length =
          2 * Real.tan (exCamera.vfov / 2) * exCamera.focus_distance ∧
        (exCamera.update_perspective).horizontal.length =
          2 * Real.tan (exCamera.vfov / 2) * (exCamera.width / exCamera.height) *
            exCamera.focus_distance) := by
  have hlf : exCamera.lookfrom - exCamera.lookat ≠ (⟨0, 0, 0⟩ : Vec3) := by
    simp only [exCamera, Vec3.sub_def]
    rw [Ne, Vec3.mk.injEq]
    rintro ⟨-, -, hz⟩
    norm_num at hz
  have hnorm : (exCamera.lookfrom - exCamera.lookat).normalized = ⟨0, 0, 1⟩ := by
    simp only [exCamera, Vec3.sub_def, Vec3.normalized, Vec3.length, Vec3.length_squared]
    rw [show (0 : ℝ) - 0 = 0 from by norm_num, show (1 : ℝ) - 0 = 1 from by norm_num]
    rw [show (0 : ℝ) * 0 + 0 * 0 + 1 * 1 = 1 from by norm_num, Real.sqrt_one]
    simp only [Vec3.div_def, Vec3.mk.injEq]
    norm_num
  have hup : Vec3.cross exCamera.up
      ((exCamera.lookfrom - exCamera.lookat).normalized) ≠ (⟨0, 0, 0⟩ : Vec3) := by
    rw [hnorm]
    simp only [exCamera, Vec3.cross]
    rw [Ne, Vec3.mk.injEq]
    rintro ⟨hx, -, -⟩
    norm_num at hx
  have htan : 0 ≤ Real.tan (exCamera.vfov / 2) := by
    rw [show exCamera.vfov / 2 = Real.pi / 4 from by
      simp only [exCamera]; ring, Real.tan_pi_div_four]
    norm_num
  refine ⟨rfl, hlf, hup, ?_⟩
  exact c9_camera_viewport_dimensions exCamera rfl hlf hup htan
    (by simp only [exCamera]; norm_num) (by simp only [exCamera]; norm_num)

end

end RayTracing
